import Mathlib

/-!
# Verification of the Universal Email Automation Engine

A shallow embedding of the engine's core modules
(`src/core/MailOrchestrator.js`, `src/template-engine/TemplateService.js`,
`src/rendering/SheetTableRenderer.js`, `src/recipients/RecipientService.js`)
together with proofs of the specified properties.

Strings are modelled by Lean `String` / `List Char`; JavaScript string
primitives (`indexOf`, `includes`, `trim`, `toLowerCase`, …) are re-implemented
over `List Char`.  Dates are modelled as integer day numbers (day 0 =
1970-01-01, a Thursday), with a proleptic-Gregorian civil conversion for the
month/year operations.  Platform services (Gmail, Sheets, `Utilities`) are
modelled from the spec's collaborator contracts, as noted at each definition.
-/

namespace EmailEngine

/-! ## Character and string utilities (JS string primitives) -/

/-- The whitespace characters recognised by JavaScript's `\s` class and
`String.prototype.trim` (the common ones: space, tab, LF, CR, FF, VT, NBSP). -/
def isJsSpace (c : Char) : Bool :=
  c = ' ' || c = '\t' || c = '\n' || c = '\r' ||
  c = '\x0b' || c = '\x0c' || c = ' '

/-- `leadsWith needle hay`: `hay` starts with `needle` (JS prefix test). -/
def leadsWith : List Char → List Char → Bool
  | [], _ => true
  | _ :: _, [] => false
  | a :: as, b :: bs => a == b && leadsWith as bs

/-- `occursIn needle hay`: `needle` occurs as a contiguous substring of `hay`
(JS `hay.indexOf(needle) !== -1` / `hay.includes(needle)`). -/
def occursIn : List Char → List Char → Bool
  | needle, [] => leadsWith needle []
  | needle, h :: t => leadsWith needle (h :: t) || occursIn needle t

/-- `subjContains hay needle`: JS `hay.indexOf(needle) !== -1`. -/
def subjContains (hay needle : String) : Bool :=
  occursIn needle.data hay.data

theorem leadsWith_refl (l : List Char) : leadsWith l l = true := by
  induction l with
  | nil => rfl
  | cons a as ih => simp [leadsWith, ih]

theorem occursIn_self (l : List Char) : occursIn l l = true := by
  cases l with
  | nil => rfl
  | cons h t => simp [occursIn, leadsWith_refl]

theorem occursIn_cons (n : List Char) (c : Char) (t : List Char) :
    occursIn n (c :: t) = (leadsWith n (c :: t) || occursIn n t) := rfl

theorem occursIn_append_left (n pre hay : List Char) (h : occursIn n hay = true) :
    occursIn n (pre ++ hay) = true := by
  induction pre with
  | nil => simpa using h
  | cons c cs ih => simp [occursIn_cons, ih]

theorem subjContains_self (s : String) : subjContains s s = true :=
  occursIn_self s.data

theorem subjContains_append_left (pre s : String) :
    subjContains (pre ++ s) s = true := by
  unfold subjContains
  have : (pre ++ s).data = pre.data ++ s.data := by
    simp [String.data_append]
  rw [this]
  exact occursIn_append_left _ _ _ (occursIn_self s.data)

/-! ## Mailbox model

Modelled from the spec: the Mailbox collaborator (§6) "supports draft
enumeration/update/creation, thread search by subject, and
reply-all-on-thread".  A draft is a record of recipients, subject and bodies;
a thread is identified here by its first message's subject; `sent` is the
outbox of transmitted messages (the engine under `src/` never appends to it).
Thread search (`GmailApp.search('subject:"s"', 0, k)`) is modelled from the
spec as an exact-subject query returning at most `k` threads, and a reply-all
draft created on a thread carries the conventional `"Re: "`-prefixed subject
derived from the thread's subject. -/

structure EmailDraft where
  rcptTo : String
  subject : String
  plainBody : String
  htmlBody : String
  cc : String
  deriving Repr, DecidableEq

structure GmailThread where
  firstMessageSubject : String
  deriving Repr, DecidableEq

structure Mailbox where
  drafts : List EmailDraft
  threads : List GmailThread
  sent : List EmailDraft
  deriving Repr, DecidableEq

/-- The action taken by one orchestrator run on the mailbox. -/
inductive DraftAction where
  | updated
  | replied
  | created
  deriving Repr, DecidableEq

/-- Exact-subject thread search, `GmailApp.search('subject:"s"', 0, max)`.
Modelled from the spec: "search recent conversations by exact-subject query". -/
def searchThreads (threads : List GmailThread) (s : String) (max : Nat) : List GmailThread :=
  (threads.filter (fun t => t.firstMessageSubject == s)).take max

/-- The out-of-office / auto-reply filter of `MailOrchestrator.js` line 186:
`/^(Automatic reply|OOO|Out of Office|Absence Notice):/i`. -/
def isAutoReplySubject (s : String) : Bool :=
  let low := s.data.map Char.toLower
  leadsWith "automatic reply:".data low ||
  leadsWith "ooo:".data low ||
  leadsWith "out of office:".data low ||
  leadsWith "absence notice:".data low

/-- A reply-all draft on `t` (`thread.createDraftReplyAll(plain, {htmlBody, cc})`).
Modelled from the spec: recipients are governed by the thread's own
participants (not the template's To list, which the code ignores here), and
the draft's subject is the thread subject with the reply prefix. -/
def replyAllDraft (t : GmailThread) (plainBody htmlBody cc : String) : EmailDraft :=
  { rcptTo := "", subject := "Re: " ++ t.firstMessageSubject,
    plainBody := plainBody, htmlBody := htmlBody, cc := cc }

/-- The draft-match test of `MailOrchestrator.js` lines 153-154:
`draftSubject && draftSubject.indexOf(template.subject) !== -1`
(a null/empty subject is falsy and never matches). -/
def draftMatches (d : EmailDraft) (s : String) : Bool :=
  (d.subject != "") && subjContains d.subject s

/-- The draft-recycling loop of `MailOrchestrator.js` lines 148-174: walk the
existing drafts in order, and update the first whose subject matches in place
(`draft.update(recipientsTo, template.subject, plainTextBody,
{htmlBody, cc})`). Returns `none` when no draft matches. -/
def recycleDrafts (s toLine cc plainBody htmlBody : String) :
    List EmailDraft → Option (List EmailDraft)
  | [] => none
  | d :: ds =>
    if draftMatches d s then
      some ({ rcptTo := toLine, subject := s, plainBody := plainBody,
              htmlBody := htmlBody, cc := cc } :: ds)
    else
      (recycleDrafts s toLine cc plainBody htmlBody ds).map (d :: ·)

/-- The delivery decision and action of `generateEmailDraft`
(`MailOrchestrator.js` lines 148-227, the non-dry-run path, after template
fetch, substitution and recipient resolution): update the first matching
draft, else reply-all on the first non-auto-reply thread among the first five
matching the exact-subject query, else create a new draft.  The `sent` outbox
is never touched: no code path in `src/` transmits a message. -/
def runDraftStep (m : Mailbox) (s toLine cc plainBody htmlBody : String) :
    Mailbox × DraftAction :=
  match recycleDrafts s toLine cc plainBody htmlBody m.drafts with
  | some ds => ({ m with drafts := ds }, .updated)
  | none =>
    match (searchThreads m.threads s 5).find?
        (fun t => !(isAutoReplySubject t.firstMessageSubject)) with
    | some t =>
      ({ m with drafts := m.drafts ++ [replyAllDraft t plainBody htmlBody cc] }, .replied)
    | none =>
      ({ m with drafts := m.drafts ++ [EmailDraft.mk toLine s plainBody htmlBody cc] }, .created)

/-- The per-item mailbox action of `generateBatchDrafts`
(`MailOrchestrator.js` lines 357-374): "simplified - no recycling in batch";
search threads by exact subject with limit 1 (no auto-reply filter), reply-all
on the first hit, else create a brand-new draft.  Existing drafts are never
enumerated or modified. -/
def batchDraftStep (m : Mailbox) (s toLine cc plainBody htmlBody : String) :
    Mailbox × DraftAction :=
  match searchThreads m.threads s 1 with
  | t :: _ =>
    ({ m with drafts := m.drafts ++ [replyAllDraft t plainBody htmlBody cc] }, .replied)
  | [] =>
    ({ m with drafts := m.drafts ++ [EmailDraft.mk toLine s plainBody htmlBody cc] }, .created)

/-- Number of live drafts matching a logical subject. -/
def countMatching (drafts : List EmailDraft) (s : String) : Nat :=
  (drafts.filter (fun d => draftMatches d s)).length

theorem recycleDrafts_eq_none (s toLine cc pb hb : String) (ds : List EmailDraft)
    (h : ∀ d ∈ ds, draftMatches d s = false) :
    recycleDrafts s toLine cc pb hb ds = none := by
  induction ds with
  | nil => rfl
  | cons d ds ih =>
    have hd := h d (by simp)
    simp [recycleDrafts, hd, ih (fun x hx => h x (by simp [hx]))]

theorem recycleDrafts_append_match (s toLine cc pb hb : String)
    (xs : List EmailDraft) (d : EmailDraft)
    (hxs : ∀ x ∈ xs, draftMatches x s = false)
    (hd : draftMatches d s = true) :
    recycleDrafts s toLine cc pb hb (xs ++ [d]) =
      some (xs ++ [{ rcptTo := toLine, subject := s, plainBody := pb,
                     htmlBody := hb, cc := cc }]) := by
  induction xs with
  | nil => simp [recycleDrafts, hd]
  | cons x xs ih =>
    have hx := hxs x (by simp)
    simp [recycleDrafts, hx, ih (fun y hy => hxs y (by simp [hy]))]

theorem countMatching_append (xs ys : List EmailDraft) (s : String) :
    countMatching (xs ++ ys) s = countMatching xs s + countMatching ys s := by
  simp [countMatching, List.filter_append]

theorem countMatching_eq_zero (xs : List EmailDraft) (s : String)
    (h : ∀ x ∈ xs, draftMatches x s = false) : countMatching xs s = 0 := by
  simp only [countMatching, List.length_eq_zero, List.filter_eq_nil_iff]
  intro a ha
  simp [h a ha]

theorem draftMatches_mk (toLine pb hb cc s : String) (hs : s ≠ "") :
    draftMatches (EmailDraft.mk toLine s pb hb cc) s = true := by
  simp [draftMatches, subjContains_self, hs]

theorem draftMatches_replyAll (t : GmailThread) (pb hb cc s : String)
    (ht : t.firstMessageSubject = s) :
    draftMatches (replyAllDraft t pb hb cc) s = true := by
  subst ht
  have hne : ("Re: " ++ t.firstMessageSubject) ≠ "" := by
    intro h
    have := congrArg String.data h
    simp [String.data_append] at this
  simp [draftMatches, replyAllDraft, subjContains_append_left, hne]

/-- C1: Delivery idempotence of the single-run orchestrator.  Starting from a
mailbox with no live draft matching the resolved subject `s`, running the
draft step twice with identical content leaves exactly one live draft for that
subject: the second run finds the draft produced by the first run (its subject
contains `s` as a substring) and updates it in place instead of creating a
second draft. -/
theorem generateEmailDraft_idempotent (m : Mailbox) (s toLine cc pb hb : String)
    (hs : s ≠ "")
    (h0 : ∀ d ∈ m.drafts, draftMatches d s = false) :
    countMatching (runDraftStep (runDraftStep m s toLine cc pb hb).1 s toLine cc pb hb).1.drafts s = 1 ∧
    (runDraftStep (runDraftStep m s toLine cc pb hb).1 s toLine cc pb hb).2 = .updated ∧
    (runDraftStep (runDraftStep m s toLine cc pb hb).1 s toLine cc pb hb).1.drafts.length
      = (runDraftStep m s toLine cc pb hb).1.drafts.length := by
  have hrec : recycleDrafts s toLine cc pb hb m.drafts = none :=
    recycleDrafts_eq_none _ _ _ _ _ _ h0
  obtain ⟨d1, hd1m, hr1⟩ :
      ∃ d1, draftMatches d1 s = true ∧
        (runDraftStep m s toLine cc pb hb).1 =
          { m with drafts := m.drafts ++ [d1] } := by
    cases hf : (searchThreads m.threads s 5).find?
        (fun t => !(isAutoReplySubject t.firstMessageSubject)) with
    | none =>
      exact ⟨EmailDraft.mk toLine s pb hb cc, draftMatches_mk toLine pb hb cc s hs, by
        simp only [runDraftStep, hrec, hf]⟩
    | some t =>
      have ht : t.firstMessageSubject = s := by
        have hmem := List.mem_of_find?_eq_some hf
        have h2 : t ∈ m.threads.filter (fun t => t.firstMessageSubject == s) :=
          List.mem_of_mem_take hmem
        have := (List.mem_filter.mp h2).2
        simpa using this
      exact ⟨replyAllDraft t pb hb cc, draftMatches_replyAll t pb hb cc s ht, by
        simp only [runDraftStep, hrec, hf, replyAllDraft]⟩
  have hrec2 : recycleDrafts s toLine cc pb hb (m.drafts ++ [d1]) =
      some (m.drafts ++ [EmailDraft.mk toLine s pb hb cc]) :=
    recycleDrafts_append_match s toLine cc pb hb m.drafts d1 h0 hd1m
  rw [hr1]
  have hstep2 : runDraftStep { m with drafts := m.drafts ++ [d1] } s toLine cc pb hb =
      ({ m with drafts := m.drafts ++ [EmailDraft.mk toLine s pb hb cc] }, .updated) := by
    simp only [runDraftStep, hrec2]
  rw [hstep2]
  refine ⟨?_, rfl, by simp⟩
  rw [countMatching_append, countMatching_eq_zero m.drafts s h0]
  simp [countMatching, List.filter, draftMatches_mk toLine pb hb cc s hs]

/-- Witness for C1 at a concrete mailbox: one pre-existing unrelated draft and
one pre-existing thread, subject `"Ops Update"`. -/
theorem generateEmailDraft_idempotent_witness :
    countMatching (runDraftStep (runDraftStep
        (Mailbox.mk [EmailDraft.mk "a@x.com" "Other topic" "p" "h" ""] [GmailThread.mk "Hello"] [])
        "Ops Update" "b@x.com" "" "p" "h").1
        "Ops Update" "b@x.com" "" "p" "h").1.drafts "Ops Update" = 1 ∧
    (runDraftStep (runDraftStep
        (Mailbox.mk [EmailDraft.mk "a@x.com" "Other topic" "p" "h" ""] [GmailThread.mk "Hello"] [])
        "Ops Update" "b@x.com" "" "p" "h").1
        "Ops Update" "b@x.com" "" "p" "h").2 = .updated ∧
    (runDraftStep (runDraftStep
        (Mailbox.mk [EmailDraft.mk "a@x.com" "Other topic" "p" "h" ""] [GmailThread.mk "Hello"] [])
        "Ops Update" "b@x.com" "" "p" "h").1
        "Ops Update" "b@x.com" "" "p" "h").1.drafts.length
      = (runDraftStep
        (Mailbox.mk [EmailDraft.mk "a@x.com" "Other topic" "p" "h" ""] [GmailThread.mk "Hello"] [])
        "Ops Update" "b@x.com" "" "p" "h").1.drafts.length :=
  generateEmailDraft_idempotent _ "Ops Update" "b@x.com" "" "p" "h"
    (by decide) (by decide)

/-! ## Configuration model (`src/config/AppConfig.js`) -/

/-- The string-valued `DEFAULTS` of the `AppConfig` constructor
(`AppConfig.js` lines 13-37).  Note that no `emailAction` key exists among the
defaults and no getter for it is defined anywhere in the class. -/
def appConfigDefaults : List (String × String) :=
  [("templateDocumentId", "1dKAx4H8ILn94JZiu3F3SOI7_aO9UXkRLmtFuF-iYOrY"),
   ("directorySheetId", "1gvsnS8F5EWnnWFcTPURnZbLkU7yHrE_IOGZOQ1qxP6g"),
   ("recipientsTabName", "Combined_Long"),
   ("senderProfilesTabName", "WFM_Emails"),
   ("recipientEmailColumn", "email"),
   ("linkRepositorySheetId", "1JSIsA4SVIxt0POLYn97t5sg_OhbSTVKEXB0fQc10zJk"),
   ("linkRepositoryTabName", "current_files"),
   ("linkKeyColumn", "Mapping"),
   ("linkUrlColumn", "File_Link"),
   ("logoFileId", "1dmuO2-836NaE9HryutgDiMyuqb5X0nSv"),
   ("signatureTemplateTab", "Signature_Template")]

/-- `this.settings = { ...DEFAULTS, ...overrides }`: an override wins over the
default for the same key; unknown keys (such as `emailAction`) are stored but
have no getter. -/
def appConfigGet (overrides : List (String × String)) (key : String) : Option String :=
  match overrides.find? (fun kv => kv.1 == key) with
  | some kv => some kv.2
  | none => (appConfigDefaults.find? (fun kv => kv.1 == key)).map (fun kv => kv.2)

/-- `generateEmailDraft(templateTabName, userOverrides)` restricted to its
mailbox behaviour: the configuration object built from `userOverrides` is
consulted only for source identifiers (template document, directory, link
repository); no code path of `MailOrchestrator.js` reads an `emailAction`
setting or invokes any send/transmit operation, so the mailbox action is
`runDraftStep` irrespective of the overrides. -/
def generateEmailDraftModel (overrides : List (String × String)) (m : Mailbox)
    (s toLine cc plainBody htmlBody : String) : Mailbox × DraftAction :=
  runDraftStep m s toLine cc plainBody htmlBody

/-- C2 (code evaluation): `generateEmailDraft` has no zero-recipient guard.
With both resolved recipient lists empty the run proceeds to the mailbox and
creates a draft — a mailbox mutation — instead of halting.  (The README's
"Atomic Recipient Checks: Execution halts immediately if no valid recipients
are resolved" has no corresponding code.) -/
theorem zeroRecipients_still_mutates_mailbox :
    (runDraftStep (Mailbox.mk [] [] []) "Weekly Report" "" "" "body" "<p>body</p>").2
        = .created ∧
    (runDraftStep (Mailbox.mk [] [] []) "Weekly Report" "" "" "body" "<p>body</p>").1.drafts
        = [EmailDraft.mk "" "Weekly Report" "body" "<p>body</p>" ""] := by
  exact ⟨rfl, rfl⟩

/-- C3 (code evaluation): with `emailAction: "SEND"` in the overrides the
orchestrator still only updates the existing matching draft and transmits
nothing — the `sent` outbox stays empty and the updated draft stays pending.
The `emailAction` option documented in the README and CHANGELOG is never read
by `MailOrchestrator.js`. -/
theorem emailAction_send_never_transmits :
    appConfigGet [("emailAction", "SEND")] "emailAction" = some "SEND" ∧
    (generateEmailDraftModel [("emailAction", "SEND")]
        (Mailbox.mk [EmailDraft.mk "a@x.com" "Daily Report" "p" "h" ""] [] [])
        "Daily Report" "a@x.com" "" "p2" "h2").1.sent = [] ∧
    (generateEmailDraftModel [("emailAction", "SEND")]
        (Mailbox.mk [EmailDraft.mk "a@x.com" "Daily Report" "p" "h" ""] [] [])
        "Daily Report" "a@x.com" "" "p2" "h2").2 = .updated ∧
    (generateEmailDraftModel [("emailAction", "SEND")]
        (Mailbox.mk [EmailDraft.mk "a@x.com" "Daily Report" "p" "h" ""] [] [])
        "Daily Report" "a@x.com" "" "p2" "h2").1.drafts
      = [EmailDraft.mk "a@x.com" "Daily Report" "p2" "h2" ""] := by
  refine ⟨rfl, ?_, ?_, ?_⟩ <;> rfl

/-- C9: the batch path never recycles drafts.  For every mailbox and template
the batch item action is a creation (a reply-all draft on the first thread
matching the exact-subject query, or a brand-new draft), never an update; the
pre-existing drafts are left untouched (the new mailbox's draft list is the
old one plus exactly one appended draft); the action does not depend on the
existing drafts at all; and re-running a batch duplicates: two successive
batch steps for subject `"Daily Ops"` on an initially empty mailbox leave two
live drafts for that subject. -/
theorem generateBatchDrafts_never_recycles (m : Mailbox) (s toLine cc pb hb : String) :
    ((batchDraftStep m s toLine cc pb hb).2 ≠ .updated ∧
     (∃ d, (batchDraftStep m s toLine cc pb hb).1.drafts = m.drafts ++ [d]) ∧
     (∀ ds : List EmailDraft,
        (batchDraftStep (Mailbox.mk ds m.threads m.sent) s toLine cc pb hb).2
          = (batchDraftStep m s toLine cc pb hb).2)) ∧
    countMatching (batchDraftStep (batchDraftStep (Mailbox.mk [] [] [])
        "Daily Ops" "t@x.com" "" "p" "h").1
        "Daily Ops" "t@x.com" "" "p" "h").1.drafts "Daily Ops" = 2 := by
  refine ⟨⟨?_, ?_, ?_⟩, ?_⟩
  · cases hf : searchThreads m.threads s 1 with
    | nil => simp only [batchDraftStep, hf]; decide
    | cons t ts => simp only [batchDraftStep, hf]; decide
  · cases hf : searchThreads m.threads s 1 with
    | nil => exact ⟨EmailDraft.mk toLine s pb hb cc, by simp only [batchDraftStep, hf]⟩
    | cons t ts => exact ⟨replyAllDraft t pb hb cc, by simp only [batchDraftStep, hf]⟩
  · intro ds
    cases hf : searchThreads m.threads s 1 with
    | nil => simp only [batchDraftStep, hf]
    | cons t ts => simp only [batchDraftStep, hf]
  · rfl

/-! ## Recipient resolution (`src/recipients/RecipientService.js`) -/

/-- The per-execution directory cache structure of `RecipientService.js`
lines 53-58: the data rows (header removed), the email column index and the
tag column indices. -/
structure DistroCache where
  rows : List (List String)
  emailIndex : Nat
  tagIndices : List Nat
  deriving Repr, DecidableEq

/-- JS `[...new Set(list)]`: deduplicate keeping the first occurrence of each
element, preserving insertion order. -/
def dedupAux {α : Type} [DecidableEq α] (seen : List α) : List α → List α
  | [] => []
  | a :: as => if a ∈ seen then dedupAux seen as else a :: dedupAux (a :: seen) as

/-- `[...new Set(list)]`. -/
def jsSetDedup {α : Type} [DecidableEq α] (l : List α) : List α := dedupAux [] l

theorem mem_dedupAux {α : Type} [DecidableEq α] (l : List α) (seen : List α) (x : α) :
    x ∈ dedupAux seen l ↔ x ∈ l ∧ x ∉ seen := by
  induction l generalizing seen with
  | nil => simp [dedupAux]
  | cons a as ih =>
    by_cases h : a ∈ seen
    · simp only [dedupAux, if_pos h, ih, List.mem_cons]
      constructor
      · rintro ⟨hx, hns⟩; exact ⟨Or.inr hx, hns⟩
      · rintro ⟨hx | hx, hns⟩
        · exact absurd (hx ▸ h) hns
        · exact ⟨hx, hns⟩
    · simp only [dedupAux, if_neg h, List.mem_cons, ih]
      constructor
      · rintro (hx | ⟨hx, hns⟩)
        · exact ⟨Or.inl hx, hx ▸ h⟩
        · exact ⟨Or.inr hx, fun hc => hns (Or.inr hc)⟩
      · rintro ⟨hx | hx, hns⟩
        · exact Or.inl hx
        · by_cases hxa : x = a
          · exact Or.inl hxa
          · exact Or.inr ⟨hx, by simp [hxa, hns]⟩

theorem nodup_dedupAux {α : Type} [DecidableEq α] (l : List α) (seen : List α) :
    (dedupAux seen l).Nodup := by
  induction l generalizing seen with
  | nil => simp [dedupAux]
  | cons a as ih =>
    by_cases h : a ∈ seen
    · simpa [dedupAux, if_pos h] using ih seen
    · simp only [dedupAux, if_neg h, List.nodup_cons]
      refine ⟨fun hc => ?_, ih (a :: seen)⟩
      have := (mem_dedupAux as (a :: seen) a).mp hc
      simp at this

/-- Part B of `resolveRecipients` (`RecipientService.js` lines 70-84), applied
to the loaded cache: split the arguments into literal addresses (containing
`'@'`) and role-key lookups; keep every row one of whose tag columns equals
one of the lookups; map those rows to their email-column value (`row[i]` on a
too-short row is JS `undefined`, modelled as `none`); return
`[...new Set([...foundEmails, ...directEmails])]`.  The `args.length === 0`
early return of line 23 is included. -/
def resolveRecipients (cache : DistroCache) (args : List String) : List (Option String) :=
  if args.isEmpty then []
  else
    let directEmails := args.filter (fun a => a.data.contains '@')
    let lookups := args.filter (fun a => !(a.data.contains '@'))
    let foundEmails := (cache.rows.filter (fun row =>
        cache.tagIndices.any (fun i =>
          (row.get? i).any (fun v => lookups.contains v)))).map
      (fun row => row.get? cache.emailIndex)
    jsSetDedup (foundEmails ++ directEmails.map some)

theorem option_any_eq_true {α : Type} (o : Option α) (p : α → Bool) :
    (o.any p = true) ↔ ∃ v, o = some v ∧ p v = true := by
  cases o <;> simp

theorem list_contains_iff_mem {α : Type} [BEq α] [LawfulBEq α] (l : List α) (v : α) :
    (l.contains v = true) ↔ v ∈ l :=
  ⟨List.mem_of_elem_eq_true, List.elem_eq_true_of_mem⟩

/-- C8: recipient resolution semantics.  For every cache (loaded directory)
and argument list: (1) every literal address (a token containing `'@'`)
appears verbatim in the result, even when no directory row matches anything;
(2) the result's members are exactly the email-column values of rows in which
some configured tag column equals some requested role key, together with the
literal addresses; (3) the result is deduplicated. -/
theorem resolveRecipients_correct (cache : DistroCache) (args : List String) :
    (∀ a ∈ args, a.data.contains '@' = true → some a ∈ resolveRecipients cache args) ∧
    (∀ x : Option String, x ∈ resolveRecipients cache args ↔
      ((∃ row ∈ cache.rows,
          (∃ i ∈ cache.tagIndices, ∃ k, row.get? i = some k ∧
              k ∈ args ∧ k.data.contains '@' = false) ∧
          row.get? cache.emailIndex = x) ∨
       (∃ a ∈ args, a.data.contains '@' = true ∧ x = some a))) ∧
    (resolveRecipients cache args).Nodup := by
  by_cases hargs : args.isEmpty
  · have : args = [] := List.isEmpty_iff.mp hargs
    subst this
    simp [resolveRecipients]
  · refine ⟨?_, ?_, ?_⟩
    · intro a ha hat
      simp only [resolveRecipients, if_neg hargs, jsSetDedup, mem_dedupAux,
        List.not_mem_nil, and_true, List.mem_append, List.mem_map]
      exact ⟨Or.inr ⟨a, List.mem_filter.mpr ⟨ha, hat⟩, rfl⟩, not_false⟩
    · intro x
      simp only [resolveRecipients, if_neg hargs, jsSetDedup, mem_dedupAux,
        List.not_mem_nil, and_true, List.mem_append, List.mem_map,
        List.mem_filter, List.any_eq_true, option_any_eq_true, list_contains_iff_mem,
        Bool.not_eq_true]
      constructor
      · rintro (h | h)
        · obtain ⟨row, ⟨⟨hrow, i, hi, v, hgi, hv⟩, hx⟩⟩ := h
          obtain ⟨hva, hvnat⟩ := hv
          exact Or.inl ⟨row, hrow, ⟨i, hi, v, hgi, hva, by simpa using hvnat⟩, hx⟩
        · obtain ⟨a, ⟨ha, hat⟩, hxa⟩ := h
          exact Or.inr ⟨a, ha, hat, hxa.symm⟩
      · rintro (h | h)
        · obtain ⟨row, hrow, ⟨i, hi, k, hgi, hka, hknat⟩, hx⟩ := h
          exact ⟨Or.inl ⟨row, ⟨⟨hrow, i, hi, k, hgi, hka, by simpa using hknat⟩, hx⟩⟩, not_false⟩
        · obtain ⟨a, ha, hat, hxa⟩ := h
          exact ⟨Or.inr ⟨a, ⟨ha, hat⟩, hxa.symm⟩, not_false⟩
    · simp only [resolveRecipients, if_neg hargs, jsSetDedup]
      exact nodup_dedupAux _ _

/-! ## Sheet table rendering (`src/rendering/SheetTableRenderer.js`) -/

/-- JS `cell.trim() === ""`: true iff every character is whitespace. -/
def jsTrimIsEmpty (s : String) : Bool := s.data.all isJsSpace

/-- `values[r].every(cell => cell.trim() === "")` (line 99). -/
def isBlankRow (row : List String) : Bool := row.all jsTrimIsEmpty

/-- The trimmed row count of `getHtmlTableFromSheet_` lines 96-107: the
bottom-up `while` loop stops at the first non-empty row, so
`newRowCount = lastRowIndex + 1` is the length of `values` minus its maximal
all-blank suffix. -/
def trimCount (values : List (List String)) : Nat :=
  (values.reverse.dropWhile isBlankRow).length

/-- Per-cell merge metadata (lines 147-149): `{ rowSpan: 1, colSpan: 1,
skip: false }` initially. -/
structure CellMeta where
  rowSpan : Nat
  colSpan : Nat
  skip : Bool
  deriving Repr, DecidableEq

/-- A merged sub-region as returned by `range.getMergedRanges()`:
absolute 1-based anchor row/column and its extent. -/
structure MergeSpec where
  row : Nat
  col : Nat
  numRows : Nat
  numCols : Nat
  deriving Repr, DecidableEq

/-- One iteration of the `mergedRanges.forEach` of lines 154-176, rendered
pointwise: the imperative double loop writes each matrix cell
`(mergeStartRow + r, mergeStartCol + c)` at most once (the offsets `(r, c)`
determine the target uniquely), setting the spans at the local anchor and
`skip` on every other covered cell, guarded by the trimmed bounds check of
line 166.  Local coordinates are `merge.getRow() - startRowIndex` /
`merge.getColumn() - startColIndex` and may be negative (the merge may begin
above or left of the fetched range), hence the `Int` arithmetic. -/
def applyMerge (numRows numCols startRow startCol : Nat)
    (meta : Nat → Nat → CellMeta) (mg : MergeSpec) : Nat → Nat → CellMeta :=
  fun i j =>
    let rL : Int := (mg.row : Int) - (startRow : Int)
    let cL : Int := (mg.col : Int) - (startCol : Int)
    if i < numRows ∧ j < numCols ∧
        rL ≤ (i : Int) ∧ (i : Int) < rL + mg.numRows ∧
        cL ≤ (j : Int) ∧ (j : Int) < cL + mg.numCols then
      if (i : Int) = rL ∧ (j : Int) = cL then
        { meta i j with rowSpan := mg.numRows, colSpan := mg.numCols }
      else
        { meta i j with skip := true }
    else meta i j

/-- The full merge map (`cellMeta`) of lines 147-176. -/
def cellMetaOf (merges : List MergeSpec) (numRows numCols startRow startCol : Nat) :
    Nat → Nat → CellMeta :=
  merges.foldl (applyMerge numRows numCols startRow startCol) (fun _ _ => ⟨1, 1, false⟩)

/-- The data fetched for one `[Table]` tag: display values, per-cell style
attributes, column widths and hidden flags, row heights, merged sub-regions,
and the range's absolute 1-based origin.  Modelled from the spec's tabular
data source contract (§6). -/
structure RangeInput where
  values : List (List String)
  backgrounds : List (List String)
  fontWeights : List (List String)
  fontColors : List (List String)
  fontFamilies : List (List String)
  horizontalAligns : List (List String)
  verticalAligns : List (List String)
  fontSizes : List (List Nat)
  colWidthOf : Nat → Nat
  isColHidden : Nat → Bool
  rowHeightOf : Nat → Nat
  merges : List MergeSpec
  startRow : Nat
  startCol : Nat

/-- Column width resolution of lines 124-140: a hidden column, or a missing /
zero width, substitutes the fixed default 100. -/
def widthAt (inp : RangeInput) (c : Nat) : Nat :=
  let ci := inp.startCol + c
  if inp.isColHidden ci then 100
  else if inp.colWidthOf ci = 0 then 100
  else inp.colWidthOf ci

/-- The trimmed grid handed to the HTML builder: every matrix sliced to the
trimmed row count (`.slice(0, newRowCount)`, lines 107-116), plus the computed
column widths, row heights and merge map. -/
structure GridData where
  vals : List (List String)
  bgs : List (List String)
  weights : List (List String)
  colors : List (List String)
  families : List (List String)
  haligns : List (List String)
  valigns : List (List String)
  sizes : List (List Nat)
  colWidths : List Nat
  rowHeights : List Nat
  meta : Nat → Nat → CellMeta
  numRows : Nat
  numCols : Nat

/-- Assembles the trimmed grid from the fetched range data
(`getHtmlTableFromSheet_` lines 93-176). -/
def gridOf (inp : RangeInput) : GridData :=
  let n := trimCount inp.values
  let vals := inp.values.take n
  let numRows := vals.length
  let numCols := (vals.headD []).length
  { vals := vals
    bgs := inp.backgrounds.take n
    weights := inp.fontWeights.take n
    colors := inp.fontColors.take n
    families := inp.fontFamilies.take n
    haligns := inp.horizontalAligns.take n
    valigns := inp.verticalAligns.take n
    sizes := inp.fontSizes.take n
    colWidths := (List.range numCols).map (widthAt inp)
    rowHeights := (List.range numRows).map (fun i => inp.rowHeightOf (inp.startRow + i))
    meta := cellMetaOf inp.merges numRows numCols inp.startRow inp.startCol
    numRows := numRows
    numCols := numCols }

/-- `matrix[i][j]` with JS-style defaulting for the style matrices. -/
def cellStr (m : List (List String)) (i j : Nat) : String := (m.getD i []).getD j ""

/-- Merged-cell width (lines 198-205): the anchor's width is the sum of the
spanned column widths when `colSpan > 1`, else the column's own width. -/
def cellWidthFor (colWidths : List Nat) (j : Nat) (meta : CellMeta) : Nat :=
  if meta.colSpan > 1 then
    ((List.range meta.colSpan).map (fun k => colWidths.getD (j + k) 0)).sum
  else colWidths.getD j 0

/-- One `<td>` element (lines 196-229). -/
def tdHtml (g : GridData) (i j : Nat) : String :=
  let meta := g.meta i j
  let cw := cellWidthFor g.colWidths j meta
  let fam := cellStr g.families i j
  let rowSpanAttr := if meta.rowSpan > 1 then " rowspan=\"" ++ toString meta.rowSpan ++ "\"" else ""
  let colSpanAttr := if meta.colSpan > 1 then " colspan=\"" ++ toString meta.colSpan ++ "\"" else ""
  let styles := String.intercalate ";"
    ["border: 1px solid #cccccc",
     "padding: 4px 6px",
     "overflow: hidden",
     "width: " ++ toString cw ++ "px",
     "min-width: " ++ toString cw ++ "px",
     "max-width: " ++ toString cw ++ "px",
     "background-color: " ++ cellStr g.bgs i j,
     "color: " ++ cellStr g.colors i j,
     "font-weight: " ++ cellStr g.weights i j,
     "font-size: " ++ toString ((g.sizes.getD i []).getD j 0) ++ "pt",
     "font-family: " ++ (if fam = "" then "Arial" else fam) ++ ", sans-serif",
     "text-align: " ++ cellStr g.haligns i j,
     "vertical-align: " ++ cellStr g.valigns i j,
     "white-space: pre-wrap"]
  "<td" ++ rowSpanAttr ++ colSpanAttr ++ " style=\"" ++ styles ++ "\">" ++
    cellStr g.vals i j ++ "</td>"

/-- The non-skipped column positions of row `i` — the `j` loop of lines
193-194 emits a cell exactly for these (`if (cellMeta[i][j].skip) continue`). -/
def rowCellIdxs (g : GridData) (i : Nat) : List Nat :=
  (List.range g.numCols).filter (fun j => !(g.meta i j).skip)

/-- One `<tr>` element (lines 187-233). -/
def rowHtml (g : GridData) (i : Nat) : String :=
  "<tr style=\"height: " ++ toString (g.rowHeights.getD i 0) ++ "px;\">" ++
    String.join ((rowCellIdxs g i).map (tdHtml g i)) ++ "</tr>"

/-- The row elements of the emitted table, one per trimmed data row. -/
def tableBodyRows (g : GridData) : List String :=
  (List.range g.numRows).map (rowHtml g)

/-- The assembled `<table>` markup (lines 178-236). -/
def tableHtml (g : GridData) : String :=
  "<table style=\"table-layout: fixed; width: " ++ toString g.colWidths.sum ++
    "px; border-collapse: collapse; border: 1px solid #cccccc; font-family: Arial, sans-serif; font-size: 10pt;\">" ++
  "<colgroup>" ++
  String.join (g.colWidths.map (fun w => "<col style=\"width: " ++ toString w ++ "px;\">")) ++
  "</colgroup>" ++
  String.join (tableBodyRows g) ++
  "</table>"

/-- `getHtmlTableFromSheet_`: trim trailing blank rows; an entirely blank
range short-circuits to the fixed no-data marker (line 104); otherwise emit
the grid. -/
def renderSheetTable (inp : RangeInput) : String :=
  if trimCount inp.values = 0 then "<p><i>(Table contains no data)</i></p>"
  else tableHtml (gridOf inp)

/-- Total number of `<td>` cell elements emitted across all rows. -/
def tableCellCount (g : GridData) : Nat :=
  ((List.range g.numRows).map (fun i => (rowCellIdxs g i).length)).sum

theorem dropWhile_append_all {α : Type} (p : α → Bool) (xs ys : List α)
    (h : ∀ x ∈ xs, p x = true) :
    (xs ++ ys).dropWhile p = ys.dropWhile p := by
  induction xs with
  | nil => rfl
  | cons x rest ih =>
    have hx := h x (by simp)
    simp only [List.cons_append, List.dropWhile_cons, hx, if_pos]
    exact ih (fun y hy => h y (by simp [hy]))

/-- The bottom-up trim stops at the first (lowest) non-blank row. -/
theorem trimCount_spec (Q : List (List String)) (r : List String) (E : List (List String))
    (hr : isBlankRow r = false)
    (hE : ∀ row ∈ E, isBlankRow row = true) :
    trimCount (Q ++ [r] ++ E) = Q.length + 1 := by
  unfold trimCount
  have h1 : (Q ++ [r] ++ E).reverse = E.reverse ++ (r :: Q.reverse) := by
    simp [List.reverse_append]
  rw [h1, dropWhile_append_all isBlankRow E.reverse (r :: Q.reverse)
    (fun x hx => hE x (by simpa using hx))]
  simp [List.dropWhile_cons, hr]

theorem trimCount_eq_zero (values : List (List String))
    (h : ∀ row ∈ values, isBlankRow row = true) :
    trimCount values = 0 := by
  unfold trimCount
  have : values.reverse.dropWhile isBlankRow = [] := by
    rw [List.dropWhile_eq_nil_iff]
    intro x hx
    exact h x (by simpa using hx)
  simp [this]

/-- C10: an all-blank fetched range renders the fixed no-data marker, and no
table markup is emitted in its place. -/
theorem allBlank_renders_noData_marker (inp : RangeInput)
    (h : ∀ row ∈ inp.values, isBlankRow row = true) :
    renderSheetTable inp = "<p><i>(Table contains no data)</i></p>" ∧
    subjContains (renderSheetTable inp) "<table" = false := by
  have hz : trimCount inp.values = 0 := trimCount_eq_zero inp.values h
  constructor
  · simp [renderSheetTable, hz]
  · simp only [renderSheetTable, hz, if_pos]
    decide

/-- A concrete all-blank 2×2 range for the C10 witness. -/
def blankRangeInput : RangeInput :=
  { values := [["", " "], ["", ""]]
    backgrounds := [["#ffffff", "#ffffff"], ["#ffffff", "#ffffff"]]
    fontWeights := [["normal", "normal"], ["normal", "normal"]]
    fontColors := [["#000000", "#000000"], ["#000000", "#000000"]]
    fontFamilies := [["Arial", "Arial"], ["Arial", "Arial"]]
    horizontalAligns := [["left", "left"], ["left", "left"]]
    verticalAligns := [["top", "top"], ["top", "top"]]
    fontSizes := [[10, 10], [10, 10]]
    colWidthOf := fun _ => 60
    isColHidden := fun _ => false
    rowHeightOf := fun _ => 21
    merges := []
    startRow := 1
    startCol := 1 }

theorem allBlank_renders_noData_marker_witness :
    renderSheetTable blankRangeInput = "<p><i>(Table contains no data)</i></p>" ∧
    subjContains (renderSheetTable blankRangeInput) "<table" = false :=
  allBlank_renders_noData_marker blankRangeInput (by decide)

/-- C7: trailing-empty-row trimming.  If the fetched values are `Q ++ [r] ++ E`
with `r` the last non-empty row and `E` the `K` trailing all-empty rows, the
rendered table has exactly `rows - K` row elements, and every per-cell
formatting matrix (sliced by `.slice(0, newRowCount)`) is cut to that same
trimmed row count (given that, as the platform guarantees, each was fetched
with the same number of rows as the values). -/
theorem trailing_blank_rows_trimmed (inp : RangeInput)
    (Q : List (List String)) (r : List String) (E : List (List String))
    (hsplit : inp.values = Q ++ [r] ++ E)
    (hr : isBlankRow r = false)
    (hE : ∀ row ∈ E, isBlankRow row = true)
    (hb : inp.backgrounds.length = inp.values.length)
    (hw : inp.fontWeights.length = inp.values.length)
    (hc : inp.fontColors.length = inp.values.length)
    (hf : inp.fontFamilies.length = inp.values.length)
    (hh : inp.horizontalAligns.length = inp.values.length)
    (hv : inp.verticalAligns.length = inp.values.length)
    (hsz : inp.fontSizes.length = inp.values.length) :
    trimCount inp.values = inp.values.length - E.length ∧
    (tableBodyRows (gridOf inp)).length = inp.values.length - E.length ∧
    (gridOf inp).bgs.length = inp.values.length - E.length ∧
    (gridOf inp).weights.length = inp.values.length - E.length ∧
    (gridOf inp).colors.length = inp.values.length - E.length ∧
    (gridOf inp).families.length = inp.values.length - E.length ∧
    (gridOf inp).haligns.length = inp.values.length - E.length ∧
    (gridOf inp).valigns.length = inp.values.length - E.length ∧
    (gridOf inp).sizes.length = inp.values.length - E.length := by
  have hlen : inp.values.length = Q.length + 1 + E.length := by
    simp [hsplit]; omega
  have htc : trimCount inp.values = Q.length + 1 := by
    rw [hsplit]; exact trimCount_spec Q r E hr hE
  have hsub : inp.values.length - E.length = Q.length + 1 := by omega
  have hle : trimCount inp.values ≤ inp.values.length := by omega
  refine ⟨by omega, ?_, ?_, ?_, ?_, ?_, ?_, ?_, ?_⟩
  · simp only [tableBodyRows, gridOf, List.length_map, List.length_range,
      List.length_take]
    omega
  all_goals
    simp only [gridOf, List.length_take]
    omega

/-- A concrete 3×1 range whose last two rows are empty, for the C7 witness. -/
def c7RangeInput : RangeInput :=
  { values := [["a"], [""], [""]]
    backgrounds := [["#fff"], ["#fff"], ["#fff"]]
    fontWeights := [["bold"], ["normal"], ["normal"]]
    fontColors := [["#000"], ["#000"], ["#000"]]
    fontFamilies := [["Arial"], ["Arial"], ["Arial"]]
    horizontalAligns := [["left"], ["left"], ["left"]]
    verticalAligns := [["top"], ["top"], ["top"]]
    fontSizes := [[10], [10], [10]]
    colWidthOf := fun _ => 80
    isColHidden := fun _ => false
    rowHeightOf := fun _ => 21
    merges := []
    startRow := 2
    startCol := 3 }

theorem trailing_blank_rows_trimmed_witness :
    trimCount c7RangeInput.values = 1 ∧
    (tableBodyRows (gridOf c7RangeInput)).length = 1 ∧
    (gridOf c7RangeInput).bgs.length = 1 ∧
    (gridOf c7RangeInput).weights.length = 1 ∧
    (gridOf c7RangeInput).colors.length = 1 ∧
    (gridOf c7RangeInput).families.length = 1 ∧
    (gridOf c7RangeInput).haligns.length = 1 ∧
    (gridOf c7RangeInput).valigns.length = 1 ∧
    (gridOf c7RangeInput).sizes.length = 1 :=
  trailing_blank_rows_trimmed c7RangeInput [] ["a"] [[""], [""]]
    rfl (by decide) (by decide) rfl rfl rfl rfl rfl rfl rfl

theorem applyMerge_eval (numRows numCols startRow startCol : Nat)
    (meta0 : Nat → Nat → CellMeta) (mg : MergeSpec) (i j : Nat) :
    applyMerge numRows numCols startRow startCol meta0 mg i j =
      if i < numRows ∧ j < numCols ∧
          ((mg.row : Int) - startRow) ≤ (i : Int) ∧
          (i : Int) < ((mg.row : Int) - startRow) + mg.numRows ∧
          ((mg.col : Int) - startCol) ≤ (j : Int) ∧
          (j : Int) < ((mg.col : Int) - startCol) + mg.numCols then
        if (i : Int) = (mg.row : Int) - startRow ∧ (j : Int) = (mg.col : Int) - startCol then
          { meta0 i j with rowSpan := mg.numRows, colSpan := mg.numCols }
        else { meta0 i j with skip := true }
      else meta0 i j := rfl

theorem cellMetaOf_single (mg : MergeSpec) (numRows numCols startRow startCol : Nat) :
    cellMetaOf [mg] numRows numCols startRow startCol
      = applyMerge numRows numCols startRow startCol (fun _ _ => ⟨1, 1, false⟩) mg := rfl

/-- Nat form of the covered-cell condition (the merge rectangle in range-local
coordinates). -/
def coveredBy (mg : MergeSpec) (startRow startCol i j : Nat) : Prop :=
  mg.row - startRow ≤ i ∧ i < mg.row - startRow + mg.numRows ∧
  mg.col - startCol ≤ j ∧ j < mg.col - startCol + mg.numCols

instance (mg : MergeSpec) (startRow startCol i j : Nat) :
    Decidable (coveredBy mg startRow startCol i j) := by
  unfold coveredBy; infer_instance

theorem cellMetaOf_single_anchor (mg : MergeSpec) (numRows numCols startRow startCol : Nat)
    (hr : startRow ≤ mg.row) (hcc : startCol ≤ mg.col)
    (hrb : mg.row + mg.numRows ≤ startRow + numRows)
    (hcb : mg.col + mg.numCols ≤ startCol + numCols)
    (hR : 1 ≤ mg.numRows) (hC : 1 ≤ mg.numCols) :
    cellMetaOf [mg] numRows numCols startRow startCol
        (mg.row - startRow) (mg.col - startCol)
      = ⟨mg.numRows, mg.numCols, false⟩ := by
  rw [cellMetaOf_single, applyMerge_eval]
  rw [if_pos (by omega), if_pos (by omega)]

theorem cellMetaOf_single_covered (mg : MergeSpec) (numRows numCols startRow startCol : Nat)
    (hr : startRow ≤ mg.row) (hcc : startCol ≤ mg.col)
    (hrb : mg.row + mg.numRows ≤ startRow + numRows)
    (hcb : mg.col + mg.numCols ≤ startCol + numCols)
    (i j : Nat)
    (hcov : coveredBy mg startRow startCol i j)
    (hne : ¬(i = mg.row - startRow ∧ j = mg.col - startCol)) :
    cellMetaOf [mg] numRows numCols startRow startCol i j = ⟨1, 1, true⟩ := by
  unfold coveredBy at hcov
  rw [cellMetaOf_single, applyMerge_eval]
  rw [if_pos (by omega), if_neg (by omega)]

theorem cellMetaOf_single_outside (mg : MergeSpec) (numRows numCols startRow startCol : Nat)
    (hr : startRow ≤ mg.row) (hcc : startCol ≤ mg.col)
    (i j : Nat)
    (hncov : ¬ coveredBy mg startRow startCol i j) :
    cellMetaOf [mg] numRows numCols startRow startCol i j = ⟨1, 1, false⟩ := by
  unfold coveredBy at hncov
  rw [cellMetaOf_single, applyMerge_eval]
  rw [if_neg (by omega)]

theorem lengthFilterRange (n : Nat) (p : Nat → Bool) :
    ((List.range n).filter p).length
      = ((Finset.range n).filter (fun i => p i = true)).card := by
  induction n with
  | zero => simp
  | succ n ih =>
    rw [List.range_succ, List.filter_append, List.length_append, ih]
    have hnotmem : n ∉ (Finset.range n).filter (fun i => p i = true) := by
      simp
    by_cases hp : p n = true
    · rw [Finset.range_succ, Finset.filter_insert, if_pos hp,
        Finset.card_insert_of_not_mem hnotmem]
      simp [hp]
    · rw [Finset.range_succ, Finset.filter_insert, if_neg hp]
      simp [hp]

theorem sumMapRange (n : Nat) (f : Nat → Nat) :
    ((List.range n).map f).sum = ∑ i in Finset.range n, f i := by
  induction n with
  | zero => simp
  | succ n ih =>
    rw [List.range_succ, List.map_append, List.sum_append, ih,
      Finset.sum_range_succ]
    simp

theorem tableCellCount_eq (g : GridData) :
    tableCellCount g
      = ((Finset.range g.numRows ×ˢ Finset.range g.numCols).filter
          (fun p => (g.meta p.1 p.2).skip = false)).card := by
  unfold tableCellCount rowCellIdxs
  rw [sumMapRange]
  have hrow : ∀ i, ((List.range g.numCols).filter (fun j => !(g.meta i j).skip)).length
      = ((Finset.range g.numCols).filter (fun j => (g.meta i j).skip = false)).card := by
    intro i
    rw [lengthFilterRange]
    congr 1
    ext j
    simp [Bool.not_eq_true']
  simp only [hrow]
  rw [Finset.card_filter, Finset.sum_product]
  congr 1
  ext i
  rw [Finset.card_filter]

theorem skipSet_single (mg : MergeSpec) (numRows numCols startRow startCol : Nat)
    (hr : startRow ≤ mg.row) (hcc : startCol ≤ mg.col)
    (hrb : mg.row + mg.numRows ≤ startRow + numRows)
    (hcb : mg.col + mg.numCols ≤ startCol + numCols)
    (hR : 1 ≤ mg.numRows) (hC : 1 ≤ mg.numCols) :
    ((Finset.range numRows ×ˢ Finset.range numCols).filter
        (fun p => (cellMetaOf [mg] numRows numCols startRow startCol p.1 p.2).skip = true))
      = ((Finset.Ico (mg.row - startRow) (mg.row - startRow + mg.numRows)) ×ˢ
         (Finset.Ico (mg.col - startCol) (mg.col - startCol + mg.numCols))).erase
          (mg.row - startRow, mg.col - startCol) := by
  ext p
  obtain ⟨i, j⟩ := p
  simp only [Finset.mem_filter, Finset.mem_product, Finset.mem_range,
    Finset.mem_erase, Finset.mem_Ico, ne_eq, Prod.mk.injEq, not_and]
  constructor
  · rintro ⟨⟨hi, hj⟩, hskip⟩
    by_cases hcov : coveredBy mg startRow startCol i j
    · by_cases hanch : i = mg.row - startRow ∧ j = mg.col - startCol
      · exfalso
        rw [hanch.1, hanch.2,
          cellMetaOf_single_anchor mg numRows numCols startRow startCol
            hr hcc hrb hcb hR hC] at hskip
        simp at hskip
      · have hcov' := hcov
        unfold coveredBy at hcov'
        exact ⟨fun h1 h2 => hanch ⟨h1, h2⟩,
          ⟨⟨hcov'.1, hcov'.2.1⟩, ⟨hcov'.2.2.1, hcov'.2.2.2⟩⟩⟩
    · exfalso
      rw [cellMetaOf_single_outside mg numRows numCols startRow startCol
        hr hcc i j hcov] at hskip
      simp at hskip
  · rintro ⟨hne, ⟨hi1, hi2⟩, hj1, hj2⟩
    refine ⟨⟨by omega, by omega⟩, ?_⟩
    rw [cellMetaOf_single_covered mg numRows numCols startRow startCol
      hr hcc hrb hcb i j ⟨hi1, hi2, hj1, hj2⟩ (fun h => hne h.1 h.2)]

/-- C6: merge-map correctness for a single merged region lying entirely inside
the trimmed grid.  The merge map marks exactly the anchor cell with
`rowSpan = R, colSpan = C`; every one of the other covered cells is marked
`skip`; every cell outside the region keeps the default `{1, 1, skip: false}`;
and the emitted table contains exactly `numRows*numCols - (R*C - 1)` cell
elements — the `R*C - 1` suppressed cells contribute no markup. -/
theorem merge_map_single_region (inp : RangeInput) (mg : MergeSpec)
    (hm : inp.merges = [mg])
    (hr : inp.startRow ≤ mg.row) (hcc : inp.startCol ≤ mg.col)
    (hrb : mg.row + mg.numRows ≤ inp.startRow + (gridOf inp).numRows)
    (hcb : mg.col + mg.numCols ≤ inp.startCol + (gridOf inp).numCols)
    (hR : 1 ≤ mg.numRows) (hC : 1 ≤ mg.numCols) :
    ((gridOf inp).meta (mg.row - inp.startRow) (mg.col - inp.startCol)
        = ⟨mg.numRows, mg.numCols, false⟩) ∧
    (∀ i j, coveredBy mg inp.startRow inp.startCol i j →
        ¬(i = mg.row - inp.startRow ∧ j = mg.col - inp.startCol) →
        (gridOf inp).meta i j = ⟨1, 1, true⟩) ∧
    (∀ i j, ¬ coveredBy mg inp.startRow inp.startCol i j →
        (gridOf inp).meta i j = ⟨1, 1, false⟩) ∧
    tableCellCount (gridOf inp)
      = (gridOf inp).numRows * (gridOf inp).numCols - (mg.numRows * mg.numCols - 1) := by
  have hmeta : (gridOf inp).meta
      = cellMetaOf inp.merges (gridOf inp).numRows (gridOf inp).numCols
          inp.startRow inp.startCol := rfl
  rw [hmeta, hm]
  refine ⟨?_, ?_, ?_, ?_⟩
  · exact cellMetaOf_single_anchor mg _ _ _ _ hr hcc hrb hcb hR hC
  · intro i j hcov hne
    exact cellMetaOf_single_covered mg _ _ _ _ hr hcc hrb hcb i j hcov hne
  · intro i j hncov
    exact cellMetaOf_single_outside mg _ _ _ _ hr hcc i j hncov
  · have hcc2 : tableCellCount (gridOf inp)
        = ((Finset.range (gridOf inp).numRows ×ˢ Finset.range (gridOf inp).numCols).filter
            (fun p => (cellMetaOf [mg] (gridOf inp).numRows (gridOf inp).numCols
              inp.startRow inp.startCol p.1 p.2).skip = false)).card := by
      rw [tableCellCount_eq, hmeta, hm]
    rw [hcc2]
    set nR := (gridOf inp).numRows
    set nC := (gridOf inp).numCols
    set S := Finset.range nR ×ˢ Finset.range nC with hS
    have hfilterneg :
        S.filter (fun p => (cellMetaOf [mg] nR nC inp.startRow inp.startCol p.1 p.2).skip = false)
          = S \ S.filter (fun p =>
              (cellMetaOf [mg] nR nC inp.startRow inp.startCol p.1 p.2).skip = true) := by
      rw [← Finset.filter_not]
      apply Finset.filter_congr
      intro p _
      simp
    rw [hfilterneg, Finset.card_sdiff (Finset.filter_subset _ _)]
    have hskipcard :
        (S.filter (fun p =>
            (cellMetaOf [mg] nR nC inp.startRow inp.startCol p.1 p.2).skip = true)).card
          = mg.numRows * mg.numCols - 1 := by
      rw [hS, skipSet_single mg nR nC inp.startRow inp.startCol hr hcc hrb hcb hR hC]
      rw [Finset.card_erase_of_mem (by
        simp only [Finset.mem_product, Finset.mem_Ico]
        omega)]
      rw [Finset.card_product]
      simp [Nat.card_Ico]
    rw [hskipcard, hS, Finset.card_product, Finset.card_range, Finset.card_range]

/-- A concrete 3×3 range (origin row 1, column 1) with one 2×2 merged region
anchored at absolute cell (2,2) — local cell (1,1) — for the C6 witness. -/
def c6RangeInput : RangeInput :=
  { values := [["a", "b", "c"], ["d", "e", "f"], ["g", "h", "i"]]
    backgrounds := [["#fff", "#fff", "#fff"], ["#fff", "#fff", "#fff"], ["#fff", "#fff", "#fff"]]
    fontWeights := [["normal", "normal", "normal"], ["normal", "normal", "normal"], ["normal", "normal", "normal"]]
    fontColors := [["#000", "#000", "#000"], ["#000", "#000", "#000"], ["#000", "#000", "#000"]]
    fontFamilies := [["Arial", "Arial", "Arial"], ["Arial", "Arial", "Arial"], ["Arial", "Arial", "Arial"]]
    horizontalAligns := [["left", "left", "left"], ["left", "left", "left"], ["left", "left", "left"]]
    verticalAligns := [["top", "top", "top"], ["top", "top", "top"], ["top", "top", "top"]]
    fontSizes := [[10, 10, 10], [10, 10, 10], [10, 10, 10]]
    colWidthOf := fun _ => 100
    isColHidden := fun _ => false
    rowHeightOf := fun _ => 21
    merges := [MergeSpec.mk 2 2 2 2]
    startRow := 1
    startCol := 1 }

theorem merge_map_single_region_witness :
    (gridOf c6RangeInput).meta 1 1 = ⟨2, 2, false⟩ ∧
    (gridOf c6RangeInput).meta 1 2 = ⟨1, 1, true⟩ ∧
    (gridOf c6RangeInput).meta 0 0 = ⟨1, 1, false⟩ ∧
    tableCellCount (gridOf c6RangeInput) = 3 * 3 - (2 * 2 - 1) := by
  have h := merge_map_single_region c6RangeInput (MergeSpec.mk 2 2 2 2)
    rfl (by decide) (by decide) (by decide) (by decide) (by decide) (by decide)
  exact ⟨h.1, h.2.1 1 2 (by decide) (by decide), h.2.2.1 0 0 (by decide), h.2.2.2⟩

/-! ## Date model (`TemplateService.js` lines 316-391)

JS `Date` values are modelled as integer day numbers (day 0 = 1970-01-01, a
Thursday, so `getDay()` is `(z + 4) mod 7`).  The chained
`now.setDate(now.getDate() + k)` idiom shifts the date by `k` days, i.e. adds
`k` to the day number; the month/year setters go through a proleptic-Gregorian
civil conversion, with JS's overflow normalization (month 13 rolls into the
next year, day overflow rolls into the next month). -/

/-- Day number of the first day of civil month `(y, m)` (`m` 1-based, any
integer — overflow normalizes into `y`). -/
def daysFromCivilFirst (y m : Int) : Int :=
  let y1 := y + (m - 1).fdiv 12
  let m1 := (m - 1).emod 12 + 1
  let y2 := if m1 ≤ 2 then y1 - 1 else y1
  let era := y2.fdiv 400
  let yoe := y2 - era * 400
  let mp := if m1 > 2 then m1 - 3 else m1 + 9
  let doy := (153 * mp + 2).fdiv 5
  let doe := yoe * 365 + yoe.fdiv 4 - yoe.fdiv 100 + doy
  era * 146097 + doe - 719468

/-- Day number of civil date `(y, m, d)`; `d` may overflow its month, exactly
as a JS `Date` normalizes it. -/
def daysFromCivil (y m d : Int) : Int := daysFromCivilFirst y m + (d - 1)

/-- Civil date `(year, month 1-based, day)` of a day number. -/
def civilFromDays (z0 : Int) : Int × Int × Int :=
  let z := z0 + 719468
  let era := z.fdiv 146097
  let doe := z - era * 146097
  let yoe := (doe - doe.fdiv 1460 + doe.fdiv 36524 - doe.fdiv 146096).fdiv 365
  let y := yoe + era * 400
  let doy := doe - (365 * yoe + yoe.fdiv 4 - yoe.fdiv 100)
  let mp := (5 * doy + 2).fdiv 153
  let d := doy - (153 * mp + 2).fdiv 5 + 1
  let m := if mp < 10 then mp + 3 else mp - 9
  (if m ≤ 2 then y + 1 else y, m, d)

/-- JS `date.getDay()`: 0 = Sunday … 6 = Saturday. -/
def jsGetDay (z : Int) : Int := (z + 4) % 7

/-- Sanity: day 0 is 1970-01-01 and a Thursday; 2026-01-19 is day 20472 and a
Monday. -/
theorem dayModel_sanity :
    civilFromDays 0 = (1970, 1, 1) ∧ daysFromCivil 1970 1 1 = 0 ∧
    jsGetDay 0 = 4 ∧ daysFromCivil 2026 1 19 = 20472 ∧ jsGetDay 20472 = 1 := by
  decide

/-- `token.toLowerCase().replace(/\s+/g, "")` (line 318). -/
def jsToLowerNoSpace (token : String) : List Char :=
  (token.data.map Char.toLower).filter (fun c => !(isJsSpace c))

/-- The weekday-name table of line 319. -/
def weekdayNames : List (List Char) :=
  ["sunday".data, "monday".data, "tuesday".data, "wednesday".data,
   "thursday".data, "friday".data, "saturday".data]

/-- The first-match weekday scan of lines 323-325 (`break` on the first name
contained in the token). -/
def findWeekdayIdx (text : List Char) : Option Nat :=
  (List.range 7).find? (fun i => occursIn (weekdayNames.getD i []) text)

/-- Non-overlapping left-to-right count of regex-alternation matches
(`(text.match(/next/g) || []).length`, `/last|previous/g`), with fuel equal to
the text length (each step consumes at least one character). -/
def countAltGo (pats : List (List Char)) : Nat → List Char → Nat
  | 0, _ => 0
  | _ + 1, [] => 0
  | fuel + 1, c :: rest =>
    match pats.find? (fun p => leadsWith p (c :: rest)) with
    | some p => 1 + countAltGo pats fuel (rest.drop (p.length - 1))
    | none => countAltGo pats fuel rest

def countAlt (pats : List (List Char)) (text : List Char) : Nat :=
  countAltGo pats text.length text

/-- Digit run to number (for `parseInt(…, 10)`). -/
def digitsToNat (l : List Char) : Nat :=
  l.foldl (fun acc c => acc * 10 + (c.toNat - 48)) 0

/-- The first match of `/[-+]\d+/` (line 343), as a signed integer. -/
def findSignedInt : List Char → Option Int
  | [] => none
  | c :: rest =>
    if (c = '+' || c = '-') &&
        (match rest with | d :: _ => d.isDigit | [] => false) then
      let digits := rest.takeWhile Char.isDigit
      some (if c = '-' then -(digitsToNat digits : Int) else (digitsToNat digits : Int))
    else findSignedInt rest

/-- `parseDateToken_` (lines 316-364): normalize the token, look for a weekday
name, classify the mode, accumulate `next`/`last|previous`/`±N` shifts, then
resolve.  A found weekday (or `weekstart`, index 0) resolves through
`now.setDate(now.getDate() - now.getDay())`, `+ dayIndex`, `+ shift*7` — the
named weekday of the current Sunday-started week, shifted by whole weeks. -/
def parseDateToken (today : Int) (token : String) : Int :=
  let text := jsToLowerNoSpace token
  let dayIdx := findWeekdayIdx text
  let nextCount := countAlt ["next".data] text
  let lastCount := countAlt ["last".data, "previous".data] text
  let mathShift := (findSignedInt text).getD 0
  let shift : Int := (nextCount : Int) - (lastCount : Int) + mathShift
  let weekMult : Int := if occursIn "week".data text then 7 else 1
  match dayIdx with
  | some idx => today - jsGetDay today + idx + shift * 7
  | none =>
    if occursIn "weekstart".data text then
      today - jsGetDay today + shift * 7
    else if occursIn "yesterday".data text then
      (today - 1) + shift * weekMult
    else if occursIn "tomorrow".data text then
      (today + 1) + shift * weekMult
    else if occursIn "monthstart".data text then
      let c := civilFromDays today
      daysFromCivil c.1 (c.2.1 + shift) 1
    else if occursIn "month".data text then
      let c := civilFromDays today
      daysFromCivil c.1 (c.2.1 + shift) c.2.2
    else if occursIn "year".data text then
      let c := civilFromDays today
      daysFromCivil (c.1 + shift) c.2.1 c.2.2
    else
      today + shift * weekMult

theorem countAltGo_eq_zero (pats : List (List Char)) (fuel : Nat) (text : List Char)
    (h : ∀ p ∈ pats, occursIn p text = false) :
    countAltGo pats fuel text = 0 := by
  induction fuel generalizing text with
  | zero => rfl
  | succ fuel ih =>
    cases text with
    | nil => rfl
    | cons c rest =>
      have hfind : pats.find? (fun p => leadsWith p (c :: rest)) = none := by
        rw [List.find?_eq_none]
        intro p hp
        have hocc := h p hp
        rw [occursIn_cons] at hocc
        simp only [Bool.or_eq_false_iff] at hocc
        simp [hocc.1]
      rw [countAltGo, hfind]
      exact ih rest (fun p hp => by
        have hocc := h p hp
        rw [occursIn_cons] at hocc
        simp only [Bool.or_eq_false_iff] at hocc
        exact hocc.2)

theorem countAlt_eq_zero (pats : List (List Char)) (text : List Char)
    (h : ∀ p ∈ pats, occursIn p text = false) :
    countAlt pats text = 0 :=
  countAltGo_eq_zero pats text.length text h

/-- C4 counterexample: on Wednesday 2026-01-21 (day 20474) the plain token
`"monday"` resolves to Monday 2026-01-19 (day 20472) — the named weekday of
the *current* Sunday-started week, two days **before** today — not to the next
occurrence on/after today (which would be day 20479). -/
theorem plain_weekday_counterexample :
    parseDateToken 20474 "monday" = 20472 ∧ (20472 : Int) < 20474 ∧
    jsGetDay 20474 = 3 ∧ jsGetDay 20472 = 1 ∧ jsGetDay 20479 = 1 := by
  decide

/-- C4 (amended): for every date token containing a weekday name (first match
at index `idx`), with no `next`/`last`/`previous` qualifier and no `±N`
arithmetic suffix, `parseDateToken_` resolves to the occurrence of that
weekday in the current Sunday-started week: `today - today.getDay() + idx`.
The result falls on the named weekday but may be up to `getDay()` days before
today (it is on/after today only when `idx ≥ today.getDay()`). -/
theorem plain_weekday_resolves_to_current_week (today : Int) (token : String) (idx : Nat)
    (hidx : findWeekdayIdx (jsToLowerNoSpace token) = some idx)
    (hnext : occursIn "next".data (jsToLowerNoSpace token) = false)
    (hlast : occursIn "last".data (jsToLowerNoSpace token) = false)
    (hprev : occursIn "previous".data (jsToLowerNoSpace token) = false)
    (hmath : findSignedInt (jsToLowerNoSpace token) = none) :
    parseDateToken today token = today - jsGetDay today + idx ∧
    jsGetDay (today - jsGetDay today + idx) = idx ∧
    today - 6 ≤ today - jsGetDay today + idx ∧
    today - jsGetDay today + idx ≤ today + 6 := by
  have hidx7 : idx < 7 := by
    have := List.mem_of_find?_eq_some hidx
    simpa using this
  have h1 : countAlt ["next".data] (jsToLowerNoSpace token) = 0 :=
    countAlt_eq_zero _ _ (by
      intro p hp
      simp only [List.mem_singleton] at hp
      subst hp
      exact hnext)
  have h2 : countAlt ["last".data, "previous".data] (jsToLowerNoSpace token) = 0 :=
    countAlt_eq_zero _ _ (by
      intro p hp
      simp only [List.mem_cons, List.mem_singleton] at hp
      rcases hp with hp | hp | hp
      · subst hp; exact hlast
      · subst hp; exact hprev
      · simp at hp)
  have hmod0 : (0 : Int) ≤ (today + 4) % 7 := Int.emod_nonneg _ (by decide)
  have hmod7 : (today + 4) % 7 < 7 := Int.emod_lt_of_pos _ (by decide)
  refine ⟨?_, ?_, ?_, ?_⟩
  · simp [parseDateToken, hidx, h1, h2, hmath]
  · unfold jsGetDay
    have hq := Int.ediv_add_emod (today + 4) 7
    have hrw : today - (today + 4) % 7 + (idx : Int) + 4
        = (idx : Int) + 7 * ((today + 4) / 7) := by omega
    rw [hrw, Int.add_mul_emod_self_left]
    have : (0 : Int) ≤ (idx : Int) := by positivity
    rw [Int.emod_eq_of_lt this (by omega)]
  · unfold jsGetDay
    omega
  · unfold jsGetDay
    omega

/-- Witness for the amended C4 at day 20474 (Wednesday 2026-01-21) and token
`"friday"` (index 5): resolves to day 20476, Friday of the same week. -/
theorem plain_weekday_resolves_to_current_week_witness :
    parseDateToken 20474 "friday" = 20474 - jsGetDay 20474 + 5 ∧
    jsGetDay (20474 - jsGetDay 20474 + 5) = 5 ∧
    (20474 : Int) - 6 ≤ 20474 - jsGetDay 20474 + 5 ∧
    (20474 : Int) - jsGetDay 20474 + 5 ≤ 20474 + 6 :=
  plain_weekday_resolves_to_current_week 20474 "friday" 5
    (by decide) (by decide) (by decide) (by decide) (by decide)

/-! ## Dictionary engine (`applyDictionary_`, `TemplateService.js` lines 131-203)

The regex `/\{\{(.*?)\}\}/g` is modelled by a character scanner: at each
`{{`, the lazy `(.*?)` takes the shortest run up to the first `}}`, and `.`
does not match line terminators, so a span containing a newline before its
`}}` fails to match and the engine advances one character.  Both replacement
passes (markup healing, then command dispatch) use this scanner.  Platform
formatting services (`Utilities.formatDate`, timezones, the current hour) are
supplied by a `DictEnv`, modelled from the spec's collaborator contracts. -/

/-- Characters that JS regex `.` does not match (line terminators). -/
def isJsDotExcluded (c : Char) : Bool :=
  c = '\n' || c = '\r' || c = '\u2028' || c = '\u2029'

/-- Scan for the first `}}` through characters matchable by `.`; returns the
span content and the remainder after the `}}`. -/
def findCloseBraces : List Char → Option (List Char × List Char)
  | [] => none
  | c :: rest =>
    if c = '}' ∧ rest.head? = some '}' then some ([], rest.tail)
    else if isJsDotExcluded c then none
    else
      match findCloseBraces rest with
      | some (inner, after) => some (c :: inner, after)
      | none => none

/-- One global-replace pass of `/\{\{(.*?)\}\}/g` with callback `f` applied
to the span content; fuel bounds the scan (one unit per emitted position). -/
def replaceSpansGo (f : List Char → List Char) : Nat → List Char → List Char
  | 0, l => l
  | _ + 1, [] => []
  | fuel + 1, c :: rest =>
    if c = '{' ∧ rest.head? = some '{' then
      match findCloseBraces rest.tail with
      | some (inner, after) => f inner ++ replaceSpansGo f fuel after
      | none => c :: replaceSpansGo f fuel rest
    else c :: replaceSpansGo f fuel rest

def replaceSpans (f : List Char → List Char) (text : List Char) : List Char :=
  replaceSpansGo f text.length text

/-- After a `<`, match `[^>]+>`: at least one non-`>` character, then `>`. -/
def findTagCloseGo : List Char → Option (List Char)
  | [] => none
  | c :: rest => if c = '>' then some rest else findTagCloseGo rest

def findTagClose : List Char → Option (List Char)
  | [] => none
  | c :: rest => if c = '>' then none else findTagCloseGo rest

/-- `.replace(/<[^>]+>/g, "")` (line 137). -/
def stripTagsGo : Nat → List Char → List Char
  | 0, l => l
  | _ + 1, [] => []
  | fuel + 1, c :: rest =>
    if c = '<' then
      match findTagClose rest with
      | some after => stripTagsGo fuel after
      | none => c :: stripTagsGo fuel rest
    else c :: stripTagsGo fuel rest

def stripTags (l : List Char) : List Char := stripTagsGo l.length l

/-- `.replace(/&nbsp;/g, " ")` (line 138). -/
def replaceNbspGo : Nat → List Char → List Char
  | 0, l => l
  | _ + 1, [] => []
  | fuel + 1, c :: rest =>
    if leadsWith "&nbsp;".data (c :: rest) then
      ' ' :: replaceNbspGo fuel ((c :: rest).drop 6)
    else c :: replaceNbspGo fuel rest

def replaceNbsp (l : List Char) : List Char := replaceNbspGo l.length l

/-- `.replace(/\s+/g, " ")` (line 139). -/
def collapseWsGo : Nat → List Char → List Char
  | 0, l => l
  | _ + 1, [] => []
  | fuel + 1, c :: rest =>
    if isJsSpace c then ' ' :: collapseWsGo fuel (rest.dropWhile isJsSpace)
    else c :: collapseWsGo fuel rest

def collapseWs (l : List Char) : List Char := collapseWsGo l.length l

/-- JS `String.prototype.trim`. -/
def jsTrim (l : List Char) : List Char :=
  ((l.dropWhile isJsSpace).reverse.dropWhile isJsSpace).reverse

/-- The span-healing of the first pass (lines 135-142): strip embedded markup,
decode `&nbsp;`, collapse whitespace runs, trim. -/
def healInner (inner : List Char) : List Char :=
  jsTrim (collapseWs (replaceNbsp (stripTags inner)))

/-- `content.split(":")`. -/
def splitColon : List Char → List (List Char)
  | [] => [[]]
  | ':' :: rest => [] :: splitColon rest
  | c :: rest =>
    match splitColon rest with
    | [] => [[c]]
    | h :: t => (c :: h) :: t

/-- `content.split(":").map(p => p.trim())[0].toUpperCase()` (lines 148-149). -/
def cmdOf (content : List Char) : List Char :=
  (((splitColon content).map jsTrim).headD []).map Char.toUpper

/-- `Number(s)` is not `NaN` — the integer/decimal forms (`!isNaN(Number(param1))`,
line 164; only integer offsets reach `parseInt` in practice). -/
def jsIsNumeric (l : List Char) : Bool :=
  let t := jsTrim l
  match t with
  | [] => true
  | _ =>
    let t1 := match t with
      | '+' :: r => r
      | '-' :: r => r
      | r => r
    !t1.isEmpty && t1.all (fun c => c.isDigit || c = '.') &&
      ((t1.filter (fun c => c = '.')).length ≤ 1) && !(t1 = ['.'])

/-- `parseInt(s, 10)` on a numeric string (leading sign, digit run). -/
def jsParseInt (l : List Char) : Int :=
  let t := jsTrim l
  match t with
  | '-' :: r => -(digitsToNat (r.takeWhile Char.isDigit) : Int)
  | '+' :: r => (digitsToNat (r.takeWhile Char.isDigit) : Int)
  | r => (digitsToNat (r.takeWhile Char.isDigit) : Int)

/-- Platform services consumed by the dictionary commands.  Modelled from the
spec: `Utilities.formatDate` in the script timezone with the patterns used by
the code, the rounded current time per timezone (`getRoundedTime_`'s output),
the current hour, and the active spreadsheet URL (absent in standalone mode). -/
structure DictEnv where
  today : Int
  hourNow : Nat
  formatDate : Int → String
  formatPattern : Int → String → String
  formatMonth : Int → String
  roundedTime : String → String → String
  activeSheetUrl : Option String

/-- `getGreeting_` (lines 386-391). -/
def getGreeting (env : DictEnv) : String :=
  if env.hourNow < 12 then "Good Morning"
  else if env.hourNow < 18 then "Good Afternoon"
  else "Good Evening"

/-- `getRamcoCycle_` (lines 370-377): the 16th-to-15th billing cycle.  JS
`getMonth()` is 0-based; `new Date(y, m, d)` takes a 0-based month. -/
def getRamcoCycle (env : DictEnv) (monthOffset : Int) : String :=
  let c := civilFromDays env.today
  let m0 : Int := (if c.2.2 ≥ 16 then c.2.1 - 1 else c.2.1 - 2) + monthOffset
  let s := daysFromCivil c.1 (m0 + 1) 16
  let sc := civilFromDays s
  let e := daysFromCivil sc.1 (sc.2.1 + 1) 15
  env.formatDate s ++ " - " ++ env.formatDate e

/-- The commands recognised by the `switch` of lines 153-194. -/
def dictCommands : List (List Char) :=
  ["DATE".data, "RANGE".data, "TIME".data, "MONTHNAME".data, "RAMCO".data,
   "DATE_FORMAT".data, "GREETING".data, "ACTIVE_SPREADSHEET_LINK".data,
   "THIS_SHEET".data]

/-- The second-pass replacement callback (lines 144-201): split on `:`, trim
the parts, dispatch on the uppercased first part; missing/empty positional
arguments default to `"Today"`; an unknown command returns `match` — the whole
span — unchanged. -/
def substTag (env : DictEnv) (content : List Char) : List Char :=
  let parts := (splitColon content).map jsTrim
  let command := cmdOf content
  let param1 := if (parts.getD 1 []).isEmpty then "Today".data else parts.getD 1 []
  let param2 := if (parts.getD 2 []).isEmpty then "Today".data else parts.getD 2 []
  if command = "DATE".data then
    (env.formatDate (parseDateToken env.today (String.mk param1))).data
  else if command = "RANGE".data then
    (env.formatDate (parseDateToken env.today (String.mk param1)) ++ " - " ++
      env.formatDate (parseDateToken env.today (String.mk param2))).data
  else if command = "TIME".data then
    (if param1.map Char.toUpper = "BKK".data then env.roundedTime "Asia/Bangkok" "ICT"
     else env.roundedTime "Asia/Kuala_Lumpur" "MYT").data
  else if command = "MONTHNAME".data then
    (if jsIsNumeric param1 then
      let c := civilFromDays env.today
      env.formatMonth (daysFromCivil c.1 (c.2.1 + jsParseInt param1) 1)
     else env.formatMonth (parseDateToken env.today (String.mk param1))).data
  else if command = "RAMCO".data then
    (getRamcoCycle env (if param1.map Char.toUpper = "PREVIOUS".data then -1 else 0)).data
  else if command = "DATE_FORMAT".data then
    let fstr := if (parts.getD 2 []).isEmpty then "dd-MMM-yyyy".data else parts.getD 2 []
    (env.formatPattern (parseDateToken env.today (String.mk param1))
      (String.mk (jsTrim fstr))).data
  else if command = "GREETING".data then
    (getGreeting env).data
  else if command = "ACTIVE_SPREADSHEET_LINK".data ∨ command = "THIS_SHEET".data then
    (match env.activeSheetUrl with
     | some u => u
     | none => "#").data
  else
    "\x7b\x7b".data ++ content ++ "\x7d\x7d".data

/-- `applyDictionary_` (lines 131-203): `if (!text) return ""`, then the
healing pass over every `{{...}}` span, then the command-dispatch pass. -/
def applyDictionary (env : DictEnv) (text : String) : String :=
  if text = "" then ""
  else
    let healed := replaceSpans (fun inner => "\x7b\x7b".data ++ healInner inner ++ "\x7d\x7d".data) text.data
    String.mk (replaceSpans (substTag env) healed)

theorem findCloseBraces_clean (c : List Char) (rest : List Char)
    (h : ∀ ch ∈ c, ch ≠ '}' ∧ isJsDotExcluded ch = false) :
    findCloseBraces (c ++ '}' :: '}' :: rest) = some (c, rest) := by
  induction c with
  | nil => simp [findCloseBraces]
  | cons a as ih =>
    have ha := h a (by simp)
    rw [List.cons_append, findCloseBraces]
    rw [if_neg (by simp [ha.1]), if_neg (by simp [ha.2])]
    rw [ih (fun x hx => h x (by simp [hx]))]

theorem replaceSpansGo_no_brace (f : List Char → List Char) (fuel : Nat) (l : List Char)
    (h : ∀ ch ∈ l, ch ≠ '{') (hf : l.length ≤ fuel) :
    replaceSpansGo f fuel l = l := by
  induction fuel generalizing l with
  | zero =>
    cases l with
    | nil => rfl
    | cons c cs => simp at hf
  | succ fuel ih =>
    cases l with
    | nil => rfl
    | cons c cs =>
      have hc : c ≠ '{' := h c (by simp)
      rw [replaceSpansGo, if_neg (fun hand => hc hand.1)]
      rw [ih cs (fun x hx => h x (by simp [hx])) (by simpa using Nat.le_of_succ_le_succ hf)]

theorem replaceSpansGo_append (f : List Char → List Char) (fuel : Nat)
    (pre rest : List Char) (hpre : ∀ ch ∈ pre, ch ≠ '{') :
    replaceSpansGo f (pre.length + fuel) (pre ++ rest)
      = pre ++ replaceSpansGo f fuel rest := by
  induction pre with
  | nil => simp
  | cons c cs ih =>
    have hc : c ≠ '{' := hpre c (by simp)
    have hlen : (c :: cs).length + fuel = (cs.length + fuel) + 1 := by
      simp [Nat.add_assoc, Nat.add_comm]
    rw [hlen, List.cons_append, replaceSpansGo, if_neg (fun hand => hc hand.1)]
    rw [ih (fun x hx => hpre x (by simp [hx]))]
    rfl

theorem replaceSpansGo_span (f : List Char → List Char) (fuel : Nat)
    (c post : List Char)
    (hc : ∀ ch ∈ c, ch ≠ '}' ∧ isJsDotExcluded ch = false) :
    replaceSpansGo f (fuel + 1) ('{' :: '{' :: (c ++ '}' :: '}' :: post))
      = f c ++ replaceSpansGo f fuel post := by
  rw [replaceSpansGo, if_pos ⟨rfl, rfl⟩]
  rw [List.tail_cons, findCloseBraces_clean c post hc]

theorem findTagCloseGo_subset (l : List Char) (r : List Char)
    (h : findTagCloseGo l = some r) : ∀ ch ∈ r, ch ∈ l := by
  induction l with
  | nil => simp [findTagCloseGo] at h
  | cons a as ih =>
    rw [findTagCloseGo] at h
    by_cases ha : a = '>'
    · rw [if_pos ha] at h
      cases h
      exact fun ch hch => List.mem_cons_of_mem _ hch
    · rw [if_neg ha] at h
      exact fun ch hch => List.mem_cons_of_mem _ (ih h ch hch)

theorem findTagClose_subset (l : List Char) (r : List Char)
    (h : findTagClose l = some r) : ∀ ch ∈ r, ch ∈ l := by
  cases l with
  | nil => simp [findTagClose] at h
  | cons a as =>
    rw [findTagClose] at h
    by_cases ha : a = '>'
    · rw [if_pos ha] at h; cases h
    · rw [if_neg ha] at h
      exact fun ch hch => List.mem_cons_of_mem _ (findTagCloseGo_subset as r h ch hch)

theorem stripTagsGo_subset (fuel : Nat) (l : List Char) :
    ∀ ch ∈ stripTagsGo fuel l, ch ∈ l := by
  induction fuel generalizing l with
  | zero => cases l <;> simp [stripTagsGo]
  | succ fuel ih =>
    cases l with
    | nil => simp [stripTagsGo]
    | cons c cs =>
      rw [stripTagsGo]
      by_cases hc : c = '<'
      · rw [if_pos hc]
        cases hfind : findTagClose cs with
        | some after =>
          intro ch hch
          exact List.mem_cons_of_mem _ (findTagClose_subset cs after hfind ch (ih after ch hch))
        | none =>
          intro ch hch
          rcases List.mem_cons.mp hch with h | h
          · exact h ▸ List.mem_cons_self _ _
          · exact List.mem_cons_of_mem _ (ih cs ch h)
      · rw [if_neg hc]
        intro ch hch
        rcases List.mem_cons.mp hch with h | h
        · exact h ▸ List.mem_cons_self _ _
        · exact List.mem_cons_of_mem _ (ih cs ch h)

theorem mem_of_mem_dropWhile {α : Type} (p : α → Bool) (l : List α) :
    ∀ x ∈ l.dropWhile p, x ∈ l := by
  induction l with
  | nil => simp
  | cons a as ih =>
    rw [List.dropWhile_cons]
    by_cases ha : p a = true
    · rw [if_pos ha]
      exact fun x hx => List.mem_cons_of_mem _ (ih x hx)
    · rw [if_neg ha]
      exact fun x hx => hx

theorem replaceNbspGo_subset (fuel : Nat) (l : List Char) :
    ∀ ch ∈ replaceNbspGo fuel l, ch ∈ l ∨ ch = ' ' := by
  induction fuel generalizing l with
  | zero => exact fun ch hch => Or.inl hch
  | succ fuel ih =>
    cases l with
    | nil => simp [replaceNbspGo]
    | cons c cs =>
      rw [replaceNbspGo]
      by_cases hl : leadsWith "&nbsp;".data (c :: cs) = true
      · rw [if_pos hl]
        intro ch hch
        rcases List.mem_cons.mp hch with h | h
        · exact Or.inr h
        · rcases ih ((c :: cs).drop 6) ch h with h2 | h2
          · exact Or.inl (List.drop_subset _ _ h2)
          · exact Or.inr h2
      · rw [if_neg hl]
        intro ch hch
        rcases List.mem_cons.mp hch with h | h
        · exact Or.inl (h ▸ List.mem_cons_self _ _)
        · rcases ih cs ch h with h2 | h2
          · exact Or.inl (List.mem_cons_of_mem _ h2)
          · exact Or.inr h2

theorem collapseWsGo_subset (fuel : Nat) (l : List Char) :
    ∀ ch ∈ collapseWsGo fuel l, ch ∈ l ∨ ch = ' ' := by
  induction fuel generalizing l with
  | zero => exact fun ch hch => Or.inl hch
  | succ fuel ih =>
    cases l with
    | nil => simp [collapseWsGo]
    | cons c cs =>
      rw [collapseWsGo]
      by_cases hsp : isJsSpace c = true
      · rw [if_pos hsp]
        intro ch hch
        rcases List.mem_cons.mp hch with h | h
        · exact Or.inr h
        · rcases ih (cs.dropWhile isJsSpace) ch h with h2 | h2
          · exact Or.inl (List.mem_cons_of_mem _ (mem_of_mem_dropWhile _ _ ch h2))
          · exact Or.inr h2
      · rw [if_neg hsp]
        intro ch hch
        rcases List.mem_cons.mp hch with h | h
        · exact Or.inl (h ▸ List.mem_cons_self _ _)
        · rcases ih cs ch h with h2 | h2
          · exact Or.inl (List.mem_cons_of_mem _ h2)
          · exact Or.inr h2

theorem jsTrim_subset (l : List Char) : ∀ ch ∈ jsTrim l, ch ∈ l := by
  intro ch hch
  unfold jsTrim at hch
  rw [List.mem_reverse] at hch
  have h1 := mem_of_mem_dropWhile isJsSpace (l.dropWhile isJsSpace).reverse ch hch
  rw [List.mem_reverse] at h1
  exact mem_of_mem_dropWhile isJsSpace l ch h1

theorem healInner_subset (c : List Char) :
    ∀ ch ∈ healInner c, ch ∈ c ∨ ch = ' ' := by
  intro ch hch
  unfold healInner at hch
  have h1 := jsTrim_subset _ ch hch
  rcases collapseWsGo_subset _ _ ch h1 with h2 | h2
  · rcases replaceNbspGo_subset _ _ ch h2 with h3 | h3
    · exact Or.inl (stripTagsGo_subset _ _ ch h3)
    · exact Or.inr h3
  · exact Or.inr h2

theorem substTag_unknown (env : DictEnv) (content : List Char)
    (h : cmdOf content ∉ dictCommands) :
    substTag env content = "\x7b\x7b".data ++ content ++ "\x7d\x7d".data := by
  have h1 : ¬(cmdOf content = "DATE".data) := fun he => h (by rw [he]; simp [dictCommands])
  have h2 : ¬(cmdOf content = "RANGE".data) := fun he => h (by rw [he]; simp [dictCommands])
  have h3 : ¬(cmdOf content = "TIME".data) := fun he => h (by rw [he]; simp [dictCommands])
  have h4 : ¬(cmdOf content = "MONTHNAME".data) := fun he => h (by rw [he]; simp [dictCommands])
  have h5 : ¬(cmdOf content = "RAMCO".data) := fun he => h (by rw [he]; simp [dictCommands])
  have h6 : ¬(cmdOf content = "DATE_FORMAT".data) := fun he => h (by rw [he]; simp [dictCommands])
  have h7 : ¬(cmdOf content = "GREETING".data) := fun he => h (by rw [he]; simp [dictCommands])
  have h8 : ¬(cmdOf content = "ACTIVE_SPREADSHEET_LINK".data ∨ cmdOf content = "THIS_SHEET".data) := by
    rintro (he | he) <;> exact h (by rw [he]; simp [dictCommands])
  simp only [substTag, if_neg h1, if_neg h2, if_neg h3, if_neg h4, if_neg h5,
    if_neg h6, if_neg h7, if_neg h8]

/-- A concrete platform environment: Monday 2026-01-19 (day 20472), 09:00. -/
def sampleDictEnv : DictEnv :=
  { today := 20472
    hourNow := 9
    formatDate := fun _ => "19-Jan-2026"
    formatPattern := fun _ _ => "19-Jan-2026"
    formatMonth := fun _ => "January 2026"
    roundedTime := fun _ suffix => "9:00 AM " ++ suffix
    activeSheetUrl := none }

/-- C5 counterexample: an unknown-command span with irregular whitespace (or
embedded markup) is *not* left byte-identical — the healing pass collapses the
whitespace and strips the markup before the unknown command falls through, so
the span comes back healed, not as its original source bytes. -/
theorem unknown_command_not_byte_identical :
    applyDictionary sampleDictEnv "{{FOO  BAR}}" = "{{FOO BAR}}" ∧
    applyDictionary sampleDictEnv "x {{<b>FOO</b>:&nbsp;Today}} y" = "x {{FOO: Today}} y" ∧
    ("{{FOO BAR}}" : String) ≠ "{{FOO  BAR}}" ∧
    ("x {{FOO: Today}} y" : String) ≠ "x {{<b>FOO</b>:&nbsp;Today}} y" := by
  refine ⟨by decide, by decide, by decide, by decide⟩

/-- C5 (amended): for every text of the form `pre {{c}} post` (span content
`c` free of braces and line terminators, `pre`/`post` free of `{`) whose
healed content's first `:`-token is not a recognized command, dictionary
substitution returns the span *healed* — markup stripped, `&nbsp;` decoded,
whitespace collapsed, trimmed — re-wrapped in its braces, with the
surroundings untouched; in particular the span is byte-identical to its
source exactly when the content is already in healed form.  The substitution
is a total function: no exception escapes. -/
theorem unknown_command_resolves_to_healed_span (env : DictEnv) (pre c post : List Char)
    (hpre : ∀ ch ∈ pre, ch ≠ '{')
    (hpost : ∀ ch ∈ post, ch ≠ '{')
    (hc : ∀ ch ∈ c, ch ≠ '{' ∧ ch ≠ '}' ∧ isJsDotExcluded ch = false)
    (hcmd : cmdOf (healInner c) ∉ dictCommands) :
    applyDictionary env (String.mk (pre ++ '{' :: '{' :: (c ++ '}' :: '}' :: post)))
      = String.mk (pre ++ '{' :: '{' :: (healInner c ++ '}' :: '}' :: post)) ∧
    (healInner c = c →
      applyDictionary env (String.mk (pre ++ '{' :: '{' :: (c ++ '}' :: '}' :: post)))
        = String.mk (pre ++ '{' :: '{' :: (c ++ '}' :: '}' :: post))) := by
  have hob : ("\x7b\x7b" : String).data = ['{', '{'] := by decide
  have hcb : ("\x7d\x7d" : String).data = ['}', '}'] := by decide
  have hne : String.mk (pre ++ '{' :: '{' :: (c ++ '}' :: '}' :: post)) ≠ "" := by
    intro hemp
    have hdata := congrArg String.data hemp
    simp at hdata
  have hpass : ∀ (f : List Char → List Char) (mid : List Char),
      (∀ ch ∈ mid, ch ≠ '}' ∧ isJsDotExcluded ch = false) →
      replaceSpans f (pre ++ '{' :: '{' :: (mid ++ '}' :: '}' :: post))
        = pre ++ (f mid ++ post) := by
    intro f mid hmid
    unfold replaceSpans
    have hlen : (pre ++ '{' :: '{' :: (mid ++ '}' :: '}' :: post)).length
        = pre.length + ((mid.length + post.length + 3) + 1) := by
      simp
      omega
    rw [hlen, replaceSpansGo_append f _ pre _ hpre]
    rw [replaceSpansGo_span f _ mid post hmid]
    rw [replaceSpansGo_no_brace f _ post hpost (by omega)]
  have hhc : ∀ ch ∈ healInner c, ch ≠ '}' ∧ isJsDotExcluded ch = false := by
    intro ch h
    rcases healInner_subset c ch h with h2 | h2
    · exact ⟨(hc ch h2).2.1, (hc ch h2).2.2⟩
    · subst h2
      exact ⟨by decide, by decide⟩
  have hp1 : replaceSpans (fun inner => "\x7b\x7b".data ++ healInner inner ++ "\x7d\x7d".data)
        (pre ++ '{' :: '{' :: (c ++ '}' :: '}' :: post))
      = pre ++ '{' :: '{' :: (healInner c ++ '}' :: '}' :: post) := by
    rw [hpass _ c (fun ch h => ⟨(hc ch h).2.1, (hc ch h).2.2⟩)]
    simp [hob, hcb]
  have hp2 : replaceSpans (substTag env)
        (pre ++ '{' :: '{' :: (healInner c ++ '}' :: '}' :: post))
      = pre ++ '{' :: '{' :: (healInner c ++ '}' :: '}' :: post) := by
    rw [hpass _ (healInner c) hhc, substTag_unknown env _ hcmd]
    simp [hob, hcb]
  have hmain : applyDictionary env
        (String.mk (pre ++ '{' :: '{' :: (c ++ '}' :: '}' :: post)))
      = String.mk (pre ++ '{' :: '{' :: (healInner c ++ '}' :: '}' :: post)) := by
    rw [applyDictionary, if_neg hne]
    show String.mk (replaceSpans (substTag env)
      (replaceSpans _ (pre ++ '{' :: '{' :: (c ++ '}' :: '}' :: post)))) = _
    rw [hp1, hp2]
  exact ⟨hmain, fun hid => by rw [hmain, hid]⟩

/-- Witness for the amended C5: the repo test-suite span `{{UNKNOWN:Param}}`
(already in healed form) inside surrounding text comes back byte-identical. -/
theorem unknown_command_resolves_to_healed_span_witness :
    applyDictionary sampleDictEnv
        (String.mk ("x ".data ++ '{' :: '{' :: ("UNKNOWN:Param".data ++ '}' :: '}' :: " y".data)))
      = String.mk ("x ".data ++ '{' :: '{' ::
          (healInner "UNKNOWN:Param".data ++ '}' :: '}' :: " y".data)) ∧
    (healInner "UNKNOWN:Param".data = "UNKNOWN:Param".data →
      applyDictionary sampleDictEnv
          (String.mk ("x ".data ++ '{' :: '{' :: ("UNKNOWN:Param".data ++ '}' :: '}' :: " y".data)))
        = String.mk ("x ".data ++ '{' :: '{' :: ("UNKNOWN:Param".data ++ '}' :: '}' :: " y".data))) :=
  unknown_command_resolves_to_healed_span sampleDictEnv "x ".data "UNKNOWN:Param".data " y".data
    (by decide) (by decide) (by decide) (by decide)

end EmailEngine

